import Mathlib

/-!
Shallow embedding of `src/glyph_cache.rs`: a glyph rasterization cache that
maps a (font size, character) pair to layout metrics plus a texture handle,
populating on miss by rasterizing the glyph through a font collaborator and
uploading the resulting alpha bitmap through a texture sink.

Machine numerics are modelled exactly.  `f32`/`f64` values are the rationals
they denote; because the `Rat` operations of the standard library do not
reduce inside the kernel, this file carries its own exact rational type `Q`
(integer pairs, never normalized, all arithmetic exact, denominators kept
positive by construction).  The two `f32` operations the source performs on
data the claims depend on — the points-to-pixels conversion on line 107 and
the coverage byte conversion on line 150 — are modelled with explicit
rounding to a 24-bit significand.  `u32`/`usize` arithmetic stays in
`Nat`/`Int` with the casts made explicit where the source casts; the
wrap-around of an `i32 → u32`/`i32 → usize` cast on a negative width is not
reachable for any bounding box with `min ≤ max` and is modelled by `Int.toNat`.
-/

/-- Exact rational numbers as raw integer pairs.  No normalization is ever
performed, so every operation reduces in the kernel; all values built by this
development keep `den` positive. -/
structure Q where
  num : ℤ
  den : ℤ
  deriving DecidableEq

/-- Embed an integer. -/
def qofInt (n : ℤ) : Q := ⟨n, 1⟩

/-- Exact product. -/
def qmul (a b : Q) : Q := ⟨a.num * b.num, a.den * b.den⟩

/-- Exact sum. -/
def qadd (a b : Q) : Q := ⟨a.num * b.den + b.num * a.den, a.den * b.den⟩

/-- Exact negation. -/
def qneg (a : Q) : Q := ⟨-a.num, a.den⟩

/-- Exact difference. -/
def qsub (a b : Q) : Q := qadd a (qneg b)

/-- Order comparison by cross multiplication (valid for positive
denominators, which every value in this development has). -/
def qle (a b : Q) : Bool := decide (a.num * b.den ≤ b.num * a.den)

/-- Strict order comparison by cross multiplication. -/
def qlt (a b : Q) : Bool := decide (a.num * b.den < b.num * a.den)

/-- Floor of a rational with positive denominator. -/
def qfloor (a : Q) : ℤ := Int.fdiv a.num a.den

/-- Round half up: on the nonnegative values this development rounds, this
agrees with rounding half away from zero, the semantics of `f32::round`. -/
def qroundHalfUp (a : Q) : ℤ := qfloor (qadd a ⟨1, 2⟩)

/-- Round a rational to the nearest integer, ties to even — the IEEE 754
default rounding used by every `f32` arithmetic operation. -/
def rne (q : Q) : ℤ :=
  let f := qfloor q
  let frac := qsub q (qofInt f)
  if qlt frac ⟨1, 2⟩ then f
  else if qlt ⟨1, 2⟩ frac then f + 1
  else if f % 2 = 0 then f else f + 1

/-- Multiply a rational by `2 ^ k` for an integer exponent `k`, exactly. -/
def scalePow2 (q : Q) (k : ℤ) : Q :=
  if 0 ≤ k then qmul q ⟨((2 ^ k.toNat : ℕ) : ℤ), 1⟩
  else ⟨q.num, q.den * ((2 ^ (-k).toNat : ℕ) : ℤ)⟩

/-- Fuel-bounded binary-exponent search: for positive `q` it returns `e` with
`2 ^ e ≤ q < 2 ^ (e + 1)`.  The fuel of 600 covers every binary exponent
reachable from a finite `f32` value, so the bound never binds on the values
this development evaluates. -/
def binExpAux : Nat → Q → ℤ → ℤ
  | 0, _, e => e
  | fuel + 1, q, e =>
    if qlt q ⟨1, 1⟩ then binExpAux fuel (qmul q ⟨2, 1⟩) (e - 1)
    else if qle ⟨2, 1⟩ q then binExpAux fuel ⟨q.num, q.den * 2⟩ (e + 1)
    else e

/-- Binary exponent of a positive rational. -/
def binExp (q : Q) : ℤ := binExpAux 600 q 0

/-- The nearest 32-bit float to a rational, as the exact rational that float
denotes: round the significand to 24 bits, nearest, ties to even.
Nonpositive inputs map to 0 (this development only rounds nonnegative
values); subnormal underflow and overflow to infinity lie outside every value
evaluated here and are not modelled. -/
def fl32 (q : Q) : Q :=
  if qle q ⟨0, 1⟩ then ⟨0, 1⟩
  else scalePow2 (qofInt (rne (scalePow2 q (23 - binExp q)))) (binExp q - 23)

/-- The Rust cast `as u8` applied to a nonnegative finite float value:
truncate toward zero, saturating at 255. -/
def f32toU8 (q : Q) : Nat := min 255 (qfloor q).toNat

/-- The `f32` literal `1.333` of source line 107: the nearest binary32 value
to 1.333, namely `11182014 / 2 ^ 23`. -/
def lit1333 : Q := fl32 ⟨1333, 1000⟩

/-- Source line 107: `let size = ((size as f32) * 1.333).round() as u32;`.
`size as f32` and the product round to binary32 (hence `fl32`), `.round()`
rounds half away from zero — on these nonnegative values `qroundHalfUp` —
and `as u32` truncates the already-integral value, saturating at `u32::MAX`. -/
def toPixel (p : Nat) : Nat :=
  min (2 ^ 32 - 1) (qroundHalfUp (fl32 (qmul (fl32 (qofInt p)) lit1333))).toNat

/-- The conversion exactly as the specification words it: `pixel =
round(point * 1.333)`, in exact arithmetic with round half away from zero.
This definition follows the words of the spec, for comparison with `toPixel`,
which follows the source. -/
def specPixel (p : Nat) : ℤ := qroundHalfUp (qmul (qofInt p) ⟨1333, 1000⟩)

/-- An integer rectangle: `rusttype::Rect<i32>` as used for the pixel
bounding box. -/
structure RectI where
  minX : ℤ
  minY : ℤ
  maxX : ℤ
  maxY : ℤ
  deriving DecidableEq

/-- A float rectangle: `rusttype::Rect<f32>` as used for the exact bounding
box, coordinates being the exact rationals the floats denote. -/
structure RectQ where
  minX : Q
  minY : Q
  maxX : Q
  maxY : Q
  deriving DecidableEq

/-- What the font collaborator hands back for one character at one uniform
pixel scale: the data of the scaled, origin-positioned `rusttype` glyph that
`GlyphCache::character` consumes.  `coverage` is the sequence of
`(x, y, coverage)` callback invocations that `glyph.draw` performs, with the
coverage value the exact rational of the reported `f32`. -/
structure FontGlyph where
  id : Nat
  hasShape : Bool
  advanceWidth : Q
  exactBBox : Option RectQ
  pixelBBox : Option RectI
  coverage : List (Nat × Nat × Q)

/-- The font collaborator: a deterministic map from character and uniform
pixel scale to a scaled glyph (`self.font.glyph(ch).scaled(scale)` plus the
queries performed on it). -/
def Font : Type := Char → Nat → FontGlyph

/-- The Unicode replacement character U+FFFD used by the fallback policy on
source line 130. -/
def replacementChar : Char := Char.ofNat 0xFFFD

/-- The texture sink collaborator, modelled as the free record of the call
that created the handle: `Texture::empty()` or
`Texture::from_memory_alpha(buffer, width, height, settings)`. -/
inductive Texture where
  | empty : Texture
  | fromMemoryAlpha (buffer : List Nat) (width : Nat) (height : Nat)
      (settings : Nat) : Texture
  deriving DecidableEq

/-- One cached record: the `([Scalar; 2], [Scalar; 2], Texture)` triple the
source stores, which is also the content of the returned `Character`
(`offset`, `size` — the advance vector — and the texture). -/
structure CacheRecord where
  offset : Q × Q
  size : Q × Q
  texture : Texture
  deriving DecidableEq

/-- The cache: font handle, texture settings (opaque, passed through to the
sink), and the mapping from `(FontSize, char)` keys to records.  The
`HashMap` is modelled as an association list with unique keys; the hash
function only affects bucket layout, not the mapping. -/
structure GlyphCache where
  font : Font
  settings : Nat
  data : List ((Nat × Char) × CacheRecord)

/-- Lookup in the association list modelling `HashMap::get` /
`HashMap::entry`. -/
def lookupData : List ((Nat × Char) × CacheRecord) → (Nat × Char) → Option CacheRecord
  | [], _ => none
  | (k, r) :: rest, key => if k = key then some r else lookupData rest key

/-- `GlyphCache::from_font`: a cache with an empty mapping. -/
def from_font (font : Font) (settings : Nat) : GlyphCache :=
  ⟨font, settings, []⟩

/-- `GlyphCache::opt_character` (source lines 88–96): look the key up
directly — note that the point size is used as the key with no
points-to-pixels conversion — and return the stored triple without
populating. -/
def opt_character (g : GlyphCache) (size : Nat) (ch : Char) : Option CacheRecord :=
  lookupData g.data (size, ch)

/-- Source lines 124–131: request the glyph, then apply the fallback policy —
if the glyph is the notdef glyph (id 0) and has no shape, re-request the
glyph for U+FFFD at the same scale. -/
def selGlyph (f : Font) (px : Nat) (ch : Char) : FontGlyph :=
  let g0 := f ch px
  if g0.id = 0 ∧ g0.hasShape = false then f replacementChar px else g0

/-- The pixel bounding box with the `unwrap_or` zero rectangle of source
lines 139–142. -/
def pixelBB (g : FontGlyph) : RectI :=
  g.pixelBBox.getD ⟨0, 0, 0, 0⟩

/-- The exact bounding box with the `unwrap_or` zero rectangle of source
lines 134–137. -/
def exactBB (g : FontGlyph) : RectQ :=
  g.exactBBox.getD ⟨⟨0, 1⟩, ⟨0, 1⟩, ⟨0, 1⟩, ⟨0, 1⟩⟩

/-- `pixel_bounding_box.width()`. -/
def pbW (g : FontGlyph) : ℤ := (pixelBB g).maxX - (pixelBB g).minX

/-- `pixel_bounding_box.height()`. -/
def pbH (g : FontGlyph) : ℤ := (pixelBB g).maxY - (pixelBB g).minY

/-- `pixel_bb_width = pixel_bounding_box.width() + 2` (source line 143). -/
def bbW (g : FontGlyph) : ℤ := pbW g + 2

/-- `pixel_bb_height = pixel_bounding_box.height() + 2` (source line 144). -/
def bbH (g : FontGlyph) : ℤ := pbH g + 2

/-- The rasterization loop of source lines 148–151: for each callback
invocation `(x, y, v)` write `(255.0 * v) as u8` at index
`(x + 1) + (y + 1) * pixel_bb_width`.  Rust indexing is bounds-checked, so an
index at or past the end of the buffer aborts: result `none`. -/
def drawAll : List (Nat × Nat × Q) → Nat → List Nat → Option (List Nat)
  | [], _, buf => some buf
  | (x, y, v) :: rest, w, buf =>
    if (x + 1) + (y + 1) * w < buf.length then
      drawAll rest w (buf.set ((x + 1) + (y + 1) * w) (f32toU8 (fl32 (qmul ⟨255, 1⟩ v))))
    else none

/-- Source lines 146–151: the image buffer, zero-initialized at size
`(pixel_bb_width * pixel_bb_height) as usize`, after the draw loop. -/
def rasterBuffer (g : FontGlyph) : Option (List Nat) :=
  drawAll g.coverage (bbW g).toNat (List.replicate (bbW g * bbH g).toNat 0)

/-- The vacant-entry branch of `CharacterCache::character` (source lines
121–167): select the glyph (with notdef fallback), rasterize, and build the
record that is inserted and returned.  `none` models an abort inside the draw
loop; the two texture-creation `unwrap`s are on the collaborator side and are
modelled as non-failing, per the collaborator contract of the spec. -/
def computeMiss (f : Font) (st : Nat) (px : Nat) (ch : Char) : Option CacheRecord :=
  (rasterBuffer (selGlyph f px ch)).map fun buf =>
    { offset := (qsub (exactBB (selGlyph f px ch)).minX ⟨1, 1⟩,
                 qadd (qofInt (-(pixelBB (selGlyph f px ch)).minY)) ⟨1, 1⟩)
      size := ((selGlyph f px ch).advanceWidth, ⟨0, 1⟩)
      texture :=
        if bbW (selGlyph f px ch) = 0 ∨ bbH (selGlyph f px ch) = 0 then Texture.empty
        else Texture.fromMemoryAlpha buf (bbW (selGlyph f px ch)).toNat
          (bbH (selGlyph f px ch)).toNat st }

/-- What one `character` call yields: the returned triple, the cache
afterwards, and an instrumentation bit recording whether the vacant branch
(rasterization) ran.  The source returns `Result<Character, Error>` but never
constructs an `Err`; its only failure mode is an abort, modelled by `none`. -/
structure CharResult where
  char : CacheRecord
  cache : GlyphCache
  rasterized : Bool

/-- `CharacterCache::character` (source lines 103–175), the
lookup-or-populate operation: convert the point size to pixels, look the key
up, return the stored record on a hit, otherwise rasterize, insert and
return.  Insertion appends the new key, which was absent, to the mapping. -/
def character (g : GlyphCache) (size : Nat) (ch : Char) : Option CharResult :=
  match lookupData g.data (toPixel size, ch) with
  | some r => some ⟨r, g, false⟩
  | none =>
    (computeMiss g.font g.settings (toPixel size) ch).map fun r =>
      ⟨r, ⟨g.font, g.settings, g.data ++ [((toPixel size, ch), r)]⟩, true⟩

/-- `GlyphCache::preload_chars` (source lines 72–78): run `character` on each
element, discarding the returned record. -/
def preload_chars (g : GlyphCache) (size : Nat) : List Char → Option GlyphCache
  | [] => some g
  | ch :: rest =>
    match character g size ch with
    | some res => preload_chars res.cache size rest
    | none => none

/-- The character sequence `(0x20u8..0x7F).map(|ch| ch as char)` of source
line 83: the 95 printable ASCII characters, space through tilde. -/
def printableAscii : List Char := (List.range' 0x20 0x5F).map Char.ofNat

/-- `GlyphCache::preload_printable_ascii` (source lines 81–84). -/
def preload_printable_ascii (g : GlyphCache) (size : Nat) : Option GlyphCache :=
  preload_chars g size printableAscii

/-- An opaque I/O failure token (the `std::io::Error` that `File::open` or
`read_to_end` produces). -/
inductive IOError where
  | notFound
  | permissionDenied
  | other (code : Nat)
  deriving DecidableEq

/-- Modelled from the spec: `crate::error::Error` lives in a module of this
repository that is not under `src/`.  Spec section 7: the construction path
surfaces a `FontLoadError` wrapping the underlying I/O failure, propagated
unchanged to the caller. -/
inductive Error where
  | fontLoad (e : IOError)
  deriving DecidableEq

/-- `GlyphCache::new` (source lines 47–62).  The file system is passed in as
the outcome of `File::open` + `read_to_end` (an I/O error or the full byte
content), and font parsing (`FontCollection::from_bytes(..)` followed by
`into_font()`, selecting the first font) as a collaborator function.  The `?`
operators propagate an I/O error immediately; the two parse `unwrap`s abort
on a parse failure, modelled by `none`. -/
def new (readFont : Except IOError (List Nat)) (parseFont : List Nat → Option Font)
    (settings : Nat) : Option (Except Error GlyphCache) :=
  match readFont with
  | Except.error e => some (Except.error (Error.fontLoad e))
  | Except.ok bytes =>
    match parseFont bytes with
    | none => none
    | some font => some (Except.ok (from_font font settings))

/-- Does every coverage callback of the glyph stay inside the pixel bounding
box (`x < width` and `y < height`)?  The collaborator precondition of the
safety claim. -/
def covIn (g : FontGlyph) : Bool :=
  g.coverage.all fun e =>
    decide (e.1 < (pbW g).toNat) && decide (e.2.1 < (pbH g).toNat)

/-- The buffer indices the draw loop writes, in callback order. -/
def covPos (g : FontGlyph) : List Nat :=
  g.coverage.map fun e => (e.1 + 1) + (e.2.1 + 1) * (bbW g).toNat

/-- Is `(i, j)` on the outermost one-pixel ring of a `w × h` bitmap? -/
def isRing (w h i j : Nat) : Bool :=
  decide (i = 0) || decide (i = w - 1) || decide (j = 0) || decide (j = h - 1)

/-- Every byte on the outermost ring of the row-major `w × h` buffer is zero. -/
def ringZero (buf : List Nat) (w h : Nat) : Bool :=
  (List.range h).all fun j => (List.range w).all fun i =>
    !isRing w h i j || decide (buf.getD (i + j * w) 1 = 0)

/-- A default record, used only to name concrete computation results. -/
def dfltRecord : CacheRecord :=
  ⟨(⟨0, 1⟩, ⟨0, 1⟩), (⟨0, 1⟩, ⟨0, 1⟩), Texture.empty⟩

/-- A concrete test glyph: pixel bounding box 2 × 2 at `(0, -2)–(2, 0)`,
exact bounding box `(1/2, -2)–(2, 0)`, advance 10, two covered pixels with
coverages 1/2 and 1. -/
def testGlyph : FontGlyph :=
  ⟨7, true, ⟨10, 1⟩, some ⟨⟨1, 2⟩, ⟨-2, 1⟩, ⟨2, 1⟩, ⟨0, 1⟩⟩,
   some ⟨0, -2, 2, 0⟩, [(0, 0, ⟨1, 2⟩), (1, 1, ⟨1, 1⟩)]⟩

/-- A font whose every glyph is `testGlyph`. -/
def testFont : Font := fun _ _ => testGlyph

/-- A fresh cache over `testFont` with settings 0. -/
def cacheT : GlyphCache := from_font testFont 0

/-- The result of the first `character(12, A)` call on the fresh cache. -/
def resA : CharResult := (character cacheT 12 'A').getD ⟨dfltRecord, cacheT, false⟩

/-- The result of `character(12, A)` on the cache that already holds that
key. -/
def resA2 : CharResult :=
  (character resA.cache 12 'A').getD ⟨dfltRecord, cacheT, false⟩

/-- The cache after additionally preloading `B` at size 12. -/
def preloadB : GlyphCache := (preload_chars resA.cache 12 ['B']).getD cacheT

/-- The cache after `preload_printable_ascii(12)` on the fresh cache. -/
def asciiCache : GlyphCache := (preload_printable_ascii cacheT 12).getD cacheT

/-- A whitespace-like glyph: no exact bounding box, no pixel bounding box, no
coverage — the shape of a space character. -/
def spaceGlyph : FontGlyph := ⟨3, true, ⟨5, 1⟩, none, none, []⟩

/-- A font whose every glyph is `spaceGlyph`. -/
def spaceFont : Font := fun _ _ => spaceGlyph

/-- A fresh cache over `spaceFont` with settings 7. -/
def cacheSp : GlyphCache := from_font spaceFont 7

/-- A glyph whose single coverage callback reports `x = 2` against a pixel
bounding box of width 2 — outside the collaborator precondition, yet its
write index `3 + 1 * 4 = 7` is inside the `4 × 4 = 16`-byte buffer. -/
def outGlyph : FontGlyph :=
  ⟨7, true, ⟨10, 1⟩, some ⟨⟨1, 2⟩, ⟨-2, 1⟩, ⟨2, 1⟩, ⟨0, 1⟩⟩,
   some ⟨0, -2, 2, 0⟩, [(2, 0, ⟨1, 1⟩)]⟩

/-- A font whose every glyph is `outGlyph`. -/
def outFont : Font := fun _ _ => outGlyph

/-- A fresh cache over `outFont` with settings 0. -/
def cacheOut : GlyphCache := from_font outFont 0

/-- A notdef glyph: id 0, no shape. -/
def notdefGlyph : FontGlyph := ⟨0, false, ⟨4, 1⟩, none, none, []⟩

/-- A visible replacement glyph: id 3, pixel bounding box 2 × 3, one covered
pixel. -/
def replGlyph : FontGlyph :=
  ⟨3, true, ⟨6, 1⟩, some ⟨⟨1, 1⟩, ⟨-3, 1⟩, ⟨3, 1⟩, ⟨0, 1⟩⟩,
   some ⟨1, -3, 3, 0⟩, [(0, 0, ⟨1, 1⟩)]⟩

/-- A font mapping U+FFFD to `replGlyph` and every other character to
`notdefGlyph`. -/
def fbFont : Font := fun ch _ => if ch = replacementChar then replGlyph else notdefGlyph

/-- The record computed for `testFont` at pixel size 16. -/
def c7record : CacheRecord := (computeMiss testFont 0 16 'A').getD dfltRecord

/-- The rasterized buffer of `testGlyph`: sixteen bytes, 127 at index 5 and
255 at index 10. -/
def bufT : List Nat := (rasterBuffer testGlyph).getD []

/-! ## Association-list and cache lemmas -/

theorem lookup_append_self (l : List ((Nat × Char) × CacheRecord)) (k : Nat × Char)
    (r : CacheRecord) (h : lookupData l k = none) :
    lookupData (l ++ [(k, r)]) k = some r := by
  induction l with
  | nil => simp [lookupData]
  | cons a t ih =>
    obtain ⟨ak, ar⟩ := a
    simp only [lookupData, List.cons_append] at h ⊢
    by_cases hk : ak = k
    · rw [if_pos hk] at h
      exact absurd h (by simp)
    · rw [if_neg hk] at h ⊢
      exact ih h

theorem lookup_append_left (l l2 : List ((Nat × Char) × CacheRecord)) (k : Nat × Char)
    (r : CacheRecord) (h : lookupData l k = some r) :
    lookupData (l ++ l2) k = some r := by
  induction l with
  | nil => simp [lookupData] at h
  | cons a t ih =>
    obtain ⟨ak, ar⟩ := a
    simp only [lookupData, List.cons_append] at h ⊢
    by_cases hk : ak = k
    · rw [if_pos hk] at h ⊢
      exact h
    · rw [if_neg hk] at h ⊢
      exact ih h

theorem character_found (g : GlyphCache) (size : Nat) (ch : Char) (r : CacheRecord)
    (h : lookupData g.data (toPixel size, ch) = some r) :
    character g size ch = some ⟨r, g, false⟩ := by
  unfold character
  rw [h]

theorem character_sound (g : GlyphCache) (size : Nat) (ch : Char) (res : CharResult)
    (h : character g size ch = some res) :
    lookupData res.cache.data (toPixel size, ch) = some res.char ∧
    (∀ k r, lookupData g.data k = some r → lookupData res.cache.data k = some r) := by
  unfold character at h
  cases hl : lookupData g.data (toPixel size, ch) with
  | some r =>
    rw [hl] at h
    cases h
    exact ⟨hl, fun k r hk => hk⟩
  | none =>
    rw [hl] at h
    cases hc : computeMiss g.font g.settings (toPixel size) ch with
    | none => rw [hc] at h; simp at h
    | some r =>
      rw [hc] at h
      simp only [Option.map_some] at h
      cases h
      constructor
      · exact lookup_append_self _ _ _ hl
      · exact fun k r2 hk => lookup_append_left _ _ _ _ hk

theorem character_miss_state (g : GlyphCache) (size : Nat) (ch : Char) (res : CharResult)
    (hnone : lookupData g.data (toPixel size, ch) = none)
    (h : character g size ch = some res) :
    res.cache.data = g.data ++ [((toPixel size, ch), res.char)] := by
  unfold character at h
  rw [hnone] at h
  cases hc : computeMiss g.font g.settings (toPixel size) ch with
  | none => rw [hc] at h; simp at h
  | some r =>
    rw [hc] at h
    simp only [Option.map_some] at h
    cases h
    rfl

theorem preload_preserves (size : Nat) (cs : List Char) :
    ∀ (g g2 : GlyphCache) (k : Nat × Char) (r : CacheRecord),
      preload_chars g size cs = some g2 → lookupData g.data k = some r →
      lookupData g2.data k = some r := by
  induction cs with
  | nil =>
    intro g g2 k r h hk
    unfold preload_chars at h
    cases h
    exact hk
  | cons ch rest ih =>
    intro g g2 k r h hk
    unfold preload_chars at h
    cases hc : character g size ch with
    | none => rw [hc] at h; simp at h
    | some res =>
      rw [hc] at h
      exact ih res.cache g2 k r h ((character_sound g size ch res hc).2 k r hk)

/-! ## Buffer lemmas for the rasterization loop -/

theorem getD_set_ne (l : List Nat) (p q v d : Nat) (hpq : p ≠ q) :
    (l.set p v).getD q d = l.getD q d := by
  induction l generalizing p q with
  | nil => rfl
  | cons a t ih =>
    cases p with
    | zero =>
      cases q with
      | zero => exact absurd rfl hpq
      | succ q2 => rfl
    | succ p2 =>
      cases q with
      | zero => rfl
      | succ q2 =>
        simp only [List.set, List.getD, List.getElem?_cons_succ]
        exact ih p2 q2 (by omega)

theorem getD_set_self (l : List Nat) (p v d : Nat) (hp : p < l.length) :
    (l.set p v).getD p d = v := by
  induction l generalizing p with
  | nil => simp at hp
  | cons a t ih =>
    cases p with
    | zero => rfl
    | succ p2 =>
      simp only [List.set, List.getD, List.getElem?_cons_succ]
      exact ih p2 (by simpa using hp)

theorem getD_replicate (n p d : Nat) (hp : p < n) :
    (List.replicate n 0).getD p d = 0 := by
  induction n generalizing p with
  | zero => omega
  | succ m ih =>
    cases p with
    | zero => rfl
    | succ p2 =>
      simp only [List.replicate, List.getD, List.getElem?_cons_succ]
      exact ih p2 (by omega)

theorem drawAll_length (cov : List (Nat × Nat × Q)) (w : Nat) :
    ∀ (buf out : List Nat), drawAll cov w buf = some out → out.length = buf.length := by
  induction cov with
  | nil =>
    intro buf out h
    cases h
    rfl
  | cons e rest ih =>
    intro buf out h
    obtain ⟨x, y, v⟩ := e
    unfold drawAll at h
    split at h
    · have := ih _ _ h
      rwa [List.length_set] at this
    · exact absurd h (by simp)

theorem drawAll_untouched (cov : List (Nat × Nat × Q)) (w : Nat) :
    ∀ (buf out : List Nat) (p d : Nat), drawAll cov w buf = some out →
      (∀ e ∈ cov, (e.1 + 1) + (e.2.1 + 1) * w ≠ p) →
      out.getD p d = buf.getD p d := by
  induction cov with
  | nil =>
    intro buf out p d h hp
    cases h
    rfl
  | cons e rest ih =>
    intro buf out p d h hp
    obtain ⟨x, y, v⟩ := e
    unfold drawAll at h
    split at h
    · have hrest : ∀ e2 ∈ rest, (e2.1 + 1) + (e2.2.1 + 1) * w ≠ p := by
        intro e2 he2
        exact hp e2 (List.mem_cons_of_mem _ he2)
      have hhd : (x + 1) + (y + 1) * w ≠ p := hp (x, y, v) (List.mem_cons_self _ _)
      rw [ih _ _ p d h hrest]
      exact getD_set_ne _ _ _ _ _ hhd
    · exact absurd h (by simp)

theorem drawAll_some (w0 h0 : Nat) (cov : List (Nat × Nat × Q)) :
    ∀ (buf : List Nat), buf.length = (w0 + 2) * (h0 + 2) →
      (∀ e ∈ cov, e.1 < w0 ∧ e.2.1 < h0) →
      (drawAll cov (w0 + 2) buf).isSome = true := by
  induction cov with
  | nil =>
    intro buf hlen hin
    rfl
  | cons e rest ih =>
    intro buf hlen hin
    obtain ⟨x, y, v⟩ := e
    obtain ⟨hx0, hy0⟩ := hin (x, y, v) (List.mem_cons_self _ _)
    have hx : x < w0 := hx0
    have hy : y < h0 := hy0
    have hpos : (x + 1) + (y + 1) * (w0 + 2) < buf.length := by
      rw [hlen]
      have h1 : (x + 1) + (y + 1) * (w0 + 2) < (w0 + 2) + (y + 1) * (w0 + 2) :=
        Nat.add_lt_add_right (by omega) _
      have h2 : (w0 + 2) + (y + 1) * (w0 + 2) = (y + 2) * (w0 + 2) := by ring
      have h3 : (y + 2) * (w0 + 2) ≤ (h0 + 2) * (w0 + 2) :=
        Nat.mul_le_mul_right _ (by omega)
      have h4 : (h0 + 2) * (w0 + 2) = (w0 + 2) * (h0 + 2) := Nat.mul_comm _ _
      exact lt_of_lt_of_le (h2 ▸ h1) (h4 ▸ h3)
    unfold drawAll
    rw [if_pos hpos]
    apply ih
    · rw [List.length_set, hlen]
    · intro e2 he2
      exact hin e2 (List.mem_cons_of_mem _ he2)

theorem interior_ne_ring (w0 h0 x y i j : Nat) (hx : x < w0) (hy : y < h0)
    (hi : i < w0 + 2) (_hj : j < h0 + 2)
    (hring : i = 0 ∨ i = w0 + 1 ∨ j = 0 ∨ j = h0 + 1) :
    (x + 1) + (y + 1) * (w0 + 2) ≠ i + j * (w0 + 2) := by
  intro heq
  have hW : 0 < w0 + 2 := by omega
  have hx1 : x + 1 < w0 + 2 := by omega
  have hmod : ((x + 1) + (y + 1) * (w0 + 2)) % (w0 + 2) = x + 1 := by
    rw [Nat.add_mul_mod_self_right]
    exact Nat.mod_eq_of_lt hx1
  have hmod2 : (i + j * (w0 + 2)) % (w0 + 2) = i := by
    rw [Nat.add_mul_mod_self_right]
    exact Nat.mod_eq_of_lt hi
  have hdiv : ((x + 1) + (y + 1) * (w0 + 2)) / (w0 + 2) = y + 1 := by
    rw [Nat.add_mul_div_right _ _ hW, Nat.div_eq_of_lt hx1]
    omega
  have hdiv2 : (i + j * (w0 + 2)) / (w0 + 2) = j := by
    rw [Nat.add_mul_div_right _ _ hW, Nat.div_eq_of_lt hi]
    omega
  have hieq : i = x + 1 := by rw [← hmod2, ← heq, hmod]
  have hjeq : j = y + 1 := by rw [← hdiv2, ← heq, hdiv]
  omega

theorem covIn_forall (g : FontGlyph) (h : covIn g = true) :
    ∀ e ∈ g.coverage, e.1 < (pbW g).toNat ∧ e.2.1 < (pbH g).toNat := by
  intro e he
  unfold covIn at h
  rw [List.all_eq_true] at h
  simpa using h e he

theorem bbW_toNat (g : FontGlyph) (hw : 0 ≤ pbW g) : (bbW g).toNat = (pbW g).toNat + 2 := by
  have h1 : bbW g = pbW g + 2 := rfl
  omega

theorem bbH_toNat (g : FontGlyph) (hh : 0 ≤ pbH g) : (bbH g).toNat = (pbH g).toNat + 2 := by
  have h1 : bbH g = pbH g + 2 := rfl
  omega

theorem bbArea_toNat (g : FontGlyph) (hw : 0 ≤ pbW g) (hh : 0 ≤ pbH g) :
    (bbW g * bbH g).toNat = ((pbW g).toNat + 2) * ((pbH g).toNat + 2) := by
  have h1 : bbW g = (((pbW g).toNat + 2 : ℕ) : ℤ) := by
    have : bbW g = pbW g + 2 := rfl
    omega
  have h2 : bbH g = (((pbH g).toNat + 2 : ℕ) : ℤ) := by
    have : bbH g = pbH g + 2 := rfl
    omega
  rw [h1, h2, ← Nat.cast_mul, Int.toNat_natCast]

theorem rasterBuffer_eq (g : FontGlyph) (hw : 0 ≤ pbW g) (hh : 0 ≤ pbH g) :
    rasterBuffer g = drawAll g.coverage ((pbW g).toNat + 2)
      (List.replicate (((pbW g).toNat + 2) * ((pbH g).toNat + 2)) 0) := by
  unfold rasterBuffer
  rw [bbW_toNat g hw, bbArea_toNat g hw hh]

theorem rasterBuffer_isSome (g : FontGlyph) (hw : 0 ≤ pbW g) (hh : 0 ≤ pbH g)
    (hcov : covIn g = true) : (rasterBuffer g).isSome = true := by
  rw [rasterBuffer_eq g hw hh]
  exact drawAll_some (pbW g).toNat (pbH g).toNat g.coverage _ (by simp)
    (covIn_forall g hcov)

theorem computeMiss_isSome (f : Font) (st px : Nat) (ch : Char)
    (h : (rasterBuffer (selGlyph f px ch)).isSome = true) :
    (computeMiss f st px ch).isSome = true := by
  unfold computeMiss
  cases hr : rasterBuffer (selGlyph f px ch) with
  | none => rw [hr] at h; exact absurd h (by simp)
  | some buf => rfl

/-! ## Claim theorems -/

/-- C1: the claim asserts that peek (`opt_character`) immediately after a
`get_or_populate` (`character`) call with the same arguments returns the
record just stored.  Evaluating the code at size 12, character A: the
populate call succeeds and stores the record, but under the pixel key 16 —
`opt_character` looks the raw size 12 up without the points-to-pixels
conversion and returns absent, while peeking at 16 finds the record. -/
theorem opt_character_misses_after_character :
    opt_character cacheT 12 'A' = none ∧
    (character cacheT 12 'A').isSome = true ∧
    ((character cacheT 12 'A').map fun res => opt_character res.cache 12 'A') = some none ∧
    ((character cacheT 12 'A').map fun res => (opt_character res.cache 16 'A').isSome)
      = some true := by
  decide

/-- C2: the claim asserts that a character with a zero-area pixel bounding
box stores the designated empty texture handle and uploads nothing.
Evaluating the code on a space-like glyph (no pixel bounding box, so the
zero rectangle is used): the buffer dimensions are `0 + 2 = 2` on each side,
the guard `pixel_bb_width == 0 || pixel_bb_height == 0` is false, and the
record stores an uploaded 2 × 2 all-transparent texture, not
`Texture::empty()`. -/
theorem zero_area_space_uploads_padded_texture :
    ((character cacheSp 12 ' ').map fun res => res.char.texture)
      = some (Texture.fromMemoryAlpha (List.replicate 4 0) 2 2 7) ∧
    ((character cacheSp 12 ' ').map fun res => res.char.texture) ≠ some Texture.empty := by
  decide

/-- C3 counterexample: the claim asserts `pixel = round(point * 1.333)`.  At
point size 1500 the code computes `round(1500 * 1.333f32) = 1999` — the
binary32 value of 1.333 is slightly below 1.333 and the product rounds to a
float below 1999.5 — while the exact formula of the claim gives
`round(1999.5) = 2000`. -/
theorem toPixel_differs_from_exact_round_at_1500 :
    toPixel 1500 = 1999 ∧ specPixel 1500 = 2000 := by
  decide

/-- C3 amended: `character` keys the cache on `(toPixel size, ch)` where
`toPixel` is the conversion computed in 32-bit float arithmetic, and any two
point sizes with equal converted pixel size share exactly one cache entry —
a populate at the first size inserts a single record that a call at the
second size finds, without inserting or rasterizing again. -/
theorem same_pixel_sizes_share_one_entry (g : GlyphCache) (p1 p2 : Nat) (ch : Char)
    (res1 : CharResult)
    (hpx : toPixel p1 = toPixel p2)
    (hnone : lookupData g.data (toPixel p1, ch) = none)
    (h1 : character g p1 ch = some res1) :
    res1.cache.data.length = g.data.length + 1 ∧
    lookupData res1.cache.data (toPixel p2, ch) = some res1.char ∧
    character res1.cache p2 ch = some ⟨res1.char, res1.cache, false⟩ := by
  have hst := character_miss_state g p1 ch res1 hnone h1
  have hl2 : lookupData res1.cache.data (toPixel p2, ch) = some res1.char := by
    rw [← hpx, hst]
    exact lookup_append_self _ _ _ hnone
  refine ⟨?_, hl2, character_found _ _ _ _ hl2⟩
  rw [hst]
  simp

/-- C3 amended, witness at point size 12, character A on the fresh cache. -/
theorem same_pixel_sizes_share_one_entry_witness :
    toPixel 12 = toPixel 12 ∧
    lookupData cacheT.data (toPixel 12, 'A') = none ∧
    character cacheT 12 'A' = some resA ∧
    (resA.cache.data.length = cacheT.data.length + 1 ∧
     lookupData resA.cache.data (toPixel 12, 'A') = some resA.char ∧
     character resA.cache 12 'A' = some ⟨resA.char, resA.cache, false⟩) :=
  ⟨rfl, by decide, by rfl,
   same_pixel_sizes_share_one_entry cacheT 12 12 'A' resA rfl (by decide) (by rfl)⟩

/-- C4: the cache is append-only and memoizing.  A second `character` call
with the same arguments returns the identical stored record with the same
cache state and performs no rasterization (the vacant branch does not run);
any record already present under any key survives both a `character` call
and a `preload_chars` call unchanged. -/
theorem character_memoized_append_only (g : GlyphCache) (size : Nat) (ch : Char)
    (res : CharResult) (k : Nat × Char) (r : CacheRecord) (cs : List Char)
    (g2 : GlyphCache)
    (h1 : character g size ch = some res)
    (hk : lookupData g.data k = some r)
    (hp : preload_chars g size cs = some g2) :
    character res.cache size ch = some ⟨res.char, res.cache, false⟩ ∧
    lookupData res.cache.data k = some r ∧
    lookupData g2.data k = some r := by
  obtain ⟨hfound, hpres⟩ := character_sound g size ch res h1
  exact ⟨character_found _ _ _ _ hfound, hpres k r hk,
    preload_preserves size cs g g2 k r hp hk⟩

/-- C4, witness on the cache already holding the key (16, A). -/
theorem character_memoized_append_only_witness :
    character resA.cache 12 'A' = some resA2 ∧
    lookupData resA.cache.data (16, 'A') = some resA.char ∧
    preload_chars resA.cache 12 ['B'] = some preloadB ∧
    (character resA2.cache 12 'A' = some ⟨resA2.char, resA2.cache, false⟩ ∧
     lookupData resA2.cache.data (16, 'A') = some resA.char ∧
     lookupData preloadB.data (16, 'A') = some resA.char) :=
  ⟨by rfl, by rfl, by rfl,
   character_memoized_append_only resA.cache 12 'A' resA2 (16, 'A') resA.char ['B']
     preloadB (by rfl) (by rfl) (by rfl)⟩

theorem drawAll_writes (w : Nat) (cov : List (Nat × Nat × Q)) :
    ∀ (buf out : List Nat),
      (cov.map fun e => (e.1 + 1) + (e.2.1 + 1) * w).Nodup →
      drawAll cov w buf = some out →
      ∀ e ∈ cov, out.getD ((e.1 + 1) + (e.2.1 + 1) * w) 0
        = f32toU8 (fl32 (qmul ⟨255, 1⟩ e.2.2)) := by
  induction cov with
  | nil =>
    intro buf out hnd h e he
    exact absurd he (List.not_mem_nil e)
  | cons hd rest ih =>
    intro buf out hnd h e he
    obtain ⟨x, y, v⟩ := hd
    simp only [List.map_cons, List.nodup_cons] at hnd
    obtain ⟨hnotmem, hndrest⟩ := hnd
    unfold drawAll at h
    by_cases hlt : (x + 1) + (y + 1) * w < buf.length
    · rw [if_pos hlt] at h
      rcases List.mem_cons.mp he with heq | hemem
      · subst heq
        have hne : ∀ e2 ∈ rest, (e2.1 + 1) + (e2.2.1 + 1) * w ≠ (x + 1) + (y + 1) * w := by
          intro e2 he2 heq2
          exact hnotmem (heq2 ▸ List.mem_map_of_mem _ he2)
        rw [drawAll_untouched rest w _ out _ 0 h hne]
        exact getD_set_self _ _ _ _ hlt
      · exact ih _ out hndrest h e hemem
    · rw [if_neg hlt] at h
      exact absurd h (by simp)

/-- C5 counterexample: the claim asserts that the byte written for a covered
pixel is `round(255 * v)`.  For the coverage value 1/2 reported by
`testGlyph` at local pixel (0, 0), the buffer byte at row-major index
`(0 + 1) + (0 + 1) * 4 = 5` is `(255.0 * 0.5) as u8 = 127` — the cast
truncates — while `round(255 * 0.5) = 128`. -/
theorem coverage_byte_truncates_not_rounds :
    ((rasterBuffer testGlyph).getD []).getD 5 0 = 127 ∧
    qroundHalfUp (qmul ⟨255, 1⟩ ⟨1, 2⟩) = 128 := by
  decide

/-- C5 amended: during rasterization, every coverage callback `(x, y, v)`
writes the byte `(255.0 * v) as u8` — the float product truncated toward
zero, not rounded — into the buffer at row-major index
`(x + 1) + (y + 1) * buffer_width`, one byte per pixel; when the callback
positions are pairwise distinct, the finished buffer holds exactly that byte
at each such index. -/
theorem draw_writes_truncated_bytes (g : FontGlyph) (buf : List Nat)
    (hnd : (covPos g).Nodup)
    (hres : rasterBuffer g = some buf) :
    g.coverage.all (fun e =>
      decide (buf.getD ((e.1 + 1) + (e.2.1 + 1) * (bbW g).toNat) 0
        = f32toU8 (fl32 (qmul ⟨255, 1⟩ e.2.2)))) = true := by
  rw [List.all_eq_true]
  intro e he
  rw [decide_eq_true_eq]
  unfold covPos at hnd
  unfold rasterBuffer at hres
  exact drawAll_writes (bbW g).toNat g.coverage _ buf hnd hres e he

/-- C5 amended, witness on `testGlyph`. -/
theorem draw_writes_truncated_bytes_witness :
    (covPos testGlyph).Nodup ∧
    rasterBuffer testGlyph = some bufT ∧
    testGlyph.coverage.all (fun e =>
      decide (bufT.getD ((e.1 + 1) + (e.2.1 + 1) * (bbW testGlyph).toNat) 0
        = f32toU8 (fl32 (qmul ⟨255, 1⟩ e.2.2)))) = true :=
  ⟨by decide, by rfl, draw_writes_truncated_bytes testGlyph bufT (by decide) (by rfl)⟩

/-- C6: on a miss, a character whose glyph is notdef (id 0) with no shape is
re-requested as U+FFFD at the same scale, so it yields the same record as
directly requesting U+FFFD at the same size on the same fresh cache. -/
theorem notdef_fallback_matches_replacement (f : Font) (st size : Nat) (ch : Char)
    (hid : (f ch (toPixel size)).id = 0)
    (hsh : (f ch (toPixel size)).hasShape = false) :
    (character (from_font f st) size ch).map CharResult.char
      = (character (from_font f st) size replacementChar).map CharResult.char := by
  have hsel : selGlyph f (toPixel size) ch = selGlyph f (toPixel size) replacementChar := by
    unfold selGlyph
    rw [if_pos ⟨hid, hsh⟩, ite_self]
  have hcm : computeMiss f st (toPixel size) ch
      = computeMiss f st (toPixel size) replacementChar := by
    unfold computeMiss
    rw [hsel]
  unfold character from_font
  simp only [lookupData]
  rw [hcm]
  cases computeMiss f st (toPixel size) replacementChar with
  | none => rfl
  | some r => rfl

/-- C6, witness: `fbFont` maps Q to a shapeless notdef glyph and U+FFFD to a
visible glyph. -/
theorem notdef_fallback_matches_replacement_witness :
    (fbFont 'Q' (toPixel 12)).id = 0 ∧
    (fbFont 'Q' (toPixel 12)).hasShape = false ∧
    (character (from_font fbFont 0) 12 'Q').map CharResult.char
      = (character (from_font fbFont 0) 12 replacementChar).map CharResult.char :=
  ⟨by decide, by decide,
   notdef_fallback_matches_replacement fbFont 0 12 'Q' (by decide) (by decide)⟩

/-- C7: on a miss whose coverage callbacks stay inside the pixel bounding
box, the stored texture is the upload of the rasterized buffer with
dimensions exactly `(pixel_bbox.width + 2) × (pixel_bbox.height + 2)`, the
buffer (zero-initialized before drawing) has exactly that many bytes, and
the outermost one-pixel ring of the buffer is still zero. -/
theorem rasterized_buffer_dims_and_border (f : Font) (st px : Nat) (ch : Char)
    (r : CacheRecord)
    (hw : 0 ≤ pbW (selGlyph f px ch)) (hh : 0 ≤ pbH (selGlyph f px ch))
    (hcov : covIn (selGlyph f px ch) = true)
    (hres : computeMiss f st px ch = some r) :
    r.texture = Texture.fromMemoryAlpha ((rasterBuffer (selGlyph f px ch)).getD [])
        ((pbW (selGlyph f px ch)).toNat + 2) ((pbH (selGlyph f px ch)).toNat + 2) st ∧
    ((rasterBuffer (selGlyph f px ch)).getD []).length
        = ((pbW (selGlyph f px ch)).toNat + 2) * ((pbH (selGlyph f px ch)).toNat + 2) ∧
    ringZero ((rasterBuffer (selGlyph f px ch)).getD [])
        ((pbW (selGlyph f px ch)).toNat + 2) ((pbH (selGlyph f px ch)).toNat + 2) = true := by
  have hsome := rasterBuffer_isSome (selGlyph f px ch) hw hh hcov
  cases hr : rasterBuffer (selGlyph f px ch) with
  | none => rw [hr] at hsome; exact absurd hsome (by simp)
  | some buf =>
    have hgetD : (rasterBuffer (selGlyph f px ch)).getD [] = buf := by rw [hr]; rfl
    have hdraw : drawAll (selGlyph f px ch).coverage ((pbW (selGlyph f px ch)).toNat + 2)
        (List.replicate (((pbW (selGlyph f px ch)).toNat + 2) *
          ((pbH (selGlyph f px ch)).toNat + 2)) 0) = some buf := by
      rw [← rasterBuffer_eq (selGlyph f px ch) hw hh]
      exact hr
    have hne : ¬(bbW (selGlyph f px ch) = 0 ∨ bbH (selGlyph f px ch) = 0) := by
      have h1 : bbW (selGlyph f px ch) = pbW (selGlyph f px ch) + 2 := rfl
      have h2 : bbH (selGlyph f px ch) = pbH (selGlyph f px ch) + 2 := rfl
      intro hor
      rcases hor with h3 | h3 <;> omega
    unfold computeMiss at hres
    rw [hr, Option.map_some'] at hres
    injection hres with hres2
    have hlen : buf.length = ((pbW (selGlyph f px ch)).toNat + 2) *
        ((pbH (selGlyph f px ch)).toNat + 2) := by
      rw [drawAll_length _ _ _ _ hdraw]
      simp
    refine ⟨?_, ?_, ?_⟩
    · rw [← hres2, Option.getD_some]
      show (if bbW (selGlyph f px ch) = 0 ∨ bbH (selGlyph f px ch) = 0 then Texture.empty
        else Texture.fromMemoryAlpha buf (bbW (selGlyph f px ch)).toNat
          (bbH (selGlyph f px ch)).toNat st) = _
      rw [if_neg hne, bbW_toNat _ hw, bbH_toNat _ hh]
    · rw [Option.getD_some]
      exact hlen
    · rw [Option.getD_some]
      unfold ringZero
      simp only [List.all_eq_true]
      intro j hjmem i himem
      rw [List.mem_range] at hjmem himem
      cases hring : isRing ((pbW (selGlyph f px ch)).toNat + 2)
          ((pbH (selGlyph f px ch)).toNat + 2) i j with
      | false => simp
      | true =>
        simp only [Bool.not_true, Bool.false_or, decide_eq_true_eq]
        have hring2 : i = 0 ∨ i = (pbW (selGlyph f px ch)).toNat + 1 ∨ j = 0 ∨
            j = (pbH (selGlyph f px ch)).toNat + 1 := by
          simp only [isRing, Bool.or_eq_true, decide_eq_true_eq] at hring
          omega
        have hne2 : ∀ e ∈ (selGlyph f px ch).coverage,
            (e.1 + 1) + (e.2.1 + 1) * ((pbW (selGlyph f px ch)).toNat + 2) ≠
              i + j * ((pbW (selGlyph f px ch)).toNat + 2) := by
          intro e he
          obtain ⟨hex, hey⟩ := covIn_forall _ hcov e he
          exact interior_ne_ring _ _ _ _ _ _ hex hey himem hjmem hring2
        rw [drawAll_untouched _ _ _ _ _ _ hdraw hne2]
        apply getD_replicate
        have hb1 : i + j * ((pbW (selGlyph f px ch)).toNat + 2) <
            ((pbW (selGlyph f px ch)).toNat + 2) +
              j * ((pbW (selGlyph f px ch)).toNat + 2) :=
          Nat.add_lt_add_right himem _
        have hb2 : ((pbW (selGlyph f px ch)).toNat + 2) +
            j * ((pbW (selGlyph f px ch)).toNat + 2)
            = (j + 1) * ((pbW (selGlyph f px ch)).toNat + 2) := by ring
        have hb3 : (j + 1) * ((pbW (selGlyph f px ch)).toNat + 2) ≤
            ((pbH (selGlyph f px ch)).toNat + 2) * ((pbW (selGlyph f px ch)).toNat + 2) :=
          Nat.mul_le_mul_right _ (by omega)
        have hb4 : ((pbH (selGlyph f px ch)).toNat + 2) *
            ((pbW (selGlyph f px ch)).toNat + 2)
            = ((pbW (selGlyph f px ch)).toNat + 2) *
              ((pbH (selGlyph f px ch)).toNat + 2) :=
          Nat.mul_comm _ _
        exact lt_of_lt_of_le (hb2 ▸ hb1) (hb4 ▸ hb3)

/-- C7, witness on `testFont` at pixel size 16. -/
theorem rasterized_buffer_dims_and_border_witness :
    0 ≤ pbW (selGlyph testFont 16 'A') ∧
    0 ≤ pbH (selGlyph testFont 16 'A') ∧
    covIn (selGlyph testFont 16 'A') = true ∧
    computeMiss testFont 0 16 'A' = some c7record ∧
    (c7record.texture = Texture.fromMemoryAlpha
        ((rasterBuffer (selGlyph testFont 16 'A')).getD [])
        ((pbW (selGlyph testFont 16 'A')).toNat + 2)
        ((pbH (selGlyph testFont 16 'A')).toNat + 2) 0 ∧
     ((rasterBuffer (selGlyph testFont 16 'A')).getD []).length
        = ((pbW (selGlyph testFont 16 'A')).toNat + 2) *
          ((pbH (selGlyph testFont 16 'A')).toNat + 2) ∧
     ringZero ((rasterBuffer (selGlyph testFont 16 'A')).getD [])
        ((pbW (selGlyph testFont 16 'A')).toNat + 2)
        ((pbH (selGlyph testFont 16 'A')).toNat + 2) = true) :=
  ⟨by decide, by decide, by decide, by rfl,
   rasterized_buffer_dims_and_border testFont 0 16 'A' c7record
     (by decide) (by decide) (by decide) (by rfl)⟩

/-- C8: the claim asserts that after `preload_printable_ascii(size)`, peek
at the same size is present for exactly the 95 printable ASCII characters.
Evaluating the code at size 12: the preload succeeds and populates exactly
95 entries, all keyed at pixel size 16 — so `opt_character` at size 16 finds
every printable ASCII character, while `opt_character` at the preloaded size
12 (as the claim states it) finds none of them. -/
theorem preload_ascii_peek_size_mismatch :
    (preload_printable_ascii cacheT 12).isSome = true ∧
    asciiCache.data.length = 95 ∧
    printableAscii.all (fun ch => (opt_character asciiCache 16 ch).isSome) = true ∧
    printableAscii.all (fun ch => decide (opt_character asciiCache 12 ch = none)) = true := by
  decide

/-- C9: constructing a cache from a font path returns a `FontLoadError`
wrapping the underlying I/O error exactly when opening or reading the file
fails, with the error propagated unchanged and no retry; on success the full
byte content is parsed and the selected font backs a cache with an empty
mapping. -/
theorem new_propagates_io_error (parseFont : List Nat → Option Font) (st : Nat)
    (e : IOError) (bytes : List Nat) (font : Font) (rf : Except IOError (List Nat))
    (hpf : parseFont bytes = some font) :
    new (Except.error e) parseFont st = some (Except.error (Error.fontLoad e)) ∧
    new (Except.ok bytes) parseFont st = some (Except.ok (from_font font st)) ∧
    (from_font font st).data = [] ∧
    (new rf parseFont st = some (Except.error (Error.fontLoad e)) ↔ rf = Except.error e) := by
  refine ⟨rfl, ?_, rfl, ?_, ?_⟩
  · have hstep : new (Except.ok bytes) parseFont st
        = match parseFont bytes with
          | none => none
          | some font2 => some (Except.ok (from_font font2 st)) := rfl
    rw [hstep, hpf]
  · intro h
    cases rf with
    | error e2 =>
      have hstep : new (Except.error e2) parseFont st
          = some (Except.error (Error.fontLoad e2)) := rfl
      rw [hstep] at h
      simp only [Option.some.injEq, Except.error.injEq, Error.fontLoad.injEq] at h
      rw [h]
    | ok b =>
      have hstep : new (Except.ok b) parseFont st
          = match parseFont b with
            | none => none
            | some font2 => some (Except.ok (from_font font2 st)) := rfl
      rw [hstep] at h
      cases hb : parseFont b with
      | none => rw [hb] at h; exact absurd h (by simp)
      | some f2 => rw [hb] at h; exact absurd h (by simp)
  · intro h
    rw [h]
    rfl

/-- C9, witness with a failing read and a successful parse. -/
theorem new_propagates_io_error_witness :
    (fun _ => some testFont : List Nat → Option Font) [] = some testFont ∧
    (new (Except.error IOError.notFound) (fun _ => some testFont) 0
        = some (Except.error (Error.fontLoad IOError.notFound)) ∧
     new (Except.ok []) (fun _ => some testFont) 0
        = some (Except.ok (from_font testFont 0)) ∧
     (from_font testFont 0).data = [] ∧
     (new (Except.error IOError.notFound) (fun _ => some testFont) 0
        = some (Except.error (Error.fontLoad IOError.notFound)) ↔
      (Except.error IOError.notFound : Except IOError (List Nat))
        = Except.error IOError.notFound)) :=
  ⟨rfl, new_propagates_io_error (fun _ => some testFont) 0 IOError.notFound [] testFont
     (Except.error IOError.notFound) rfl⟩

/-- C10 counterexample: the claim asserts that a callback coordinate outside
the bounds `x < width`, `y < height` makes `get_or_populate` abort on the
index check.  `outGlyph` reports the out-of-bounds coordinate `x = 2`
against a width-2 bounding box, yet its write index `3 + 1 * 4 = 7` lands
inside the padded 16-byte buffer, and the `character` call completes without
aborting. -/
theorem out_of_bbox_coverage_does_not_panic :
    covIn outGlyph = false ∧
    (character cacheOut 12 'x').isSome = true ∧
    (rasterBuffer outGlyph).isSome = true := by
  decide

/-- C10 amended: when every coverage callback satisfies
`x < pixel_bbox.width` and `y < pixel_bbox.height`, every write index
`(x + 1) + (y + 1) * buffer_width` is strictly inside the buffer, the
indexing abort branch is unreachable and `character` returns a record; a
coordinate outside those bounds aborts only when its computed index reaches
past the buffer, and may instead write within the padded border. -/
theorem inbounds_coverage_never_panics (g : GlyphCache) (size : Nat) (ch : Char)
    (hw : 0 ≤ pbW (selGlyph g.font (toPixel size) ch))
    (hh : 0 ≤ pbH (selGlyph g.font (toPixel size) ch))
    (hcov : covIn (selGlyph g.font (toPixel size) ch) = true) :
    (character g size ch).isSome = true := by
  unfold character
  cases hl : lookupData g.data (toPixel size, ch) with
  | some r => rfl
  | none =>
    have h1 := computeMiss_isSome g.font g.settings (toPixel size) ch
      (rasterBuffer_isSome _ hw hh hcov)
    cases hc : computeMiss g.font g.settings (toPixel size) ch with
    | none => rw [hc] at h1; exact absurd h1 (by simp)
    | some r => rfl

/-- C10 amended, witness on the fresh `testFont` cache at size 12. -/
theorem inbounds_coverage_never_panics_witness :
    0 ≤ pbW (selGlyph cacheT.font (toPixel 12) 'A') ∧
    0 ≤ pbH (selGlyph cacheT.font (toPixel 12) 'A') ∧
    covIn (selGlyph cacheT.font (toPixel 12) 'A') = true ∧
    (character cacheT 12 'A').isSome = true :=
  ⟨by decide, by decide, by decide,
   inbounds_coverage_never_panics cacheT 12 'A' (by decide) (by decide) (by decide)⟩
